import Mathlib

/-!
Verification of the chronopharmacology dashboard's pharmacokinetic signal
engine (`app.py`) and the risk-triage dashboard (`app_2.0.py`).

Curves are embedded as lists of rationals (exact arithmetic standing in for
the float arrays of the source) except for the pharmacokinetic model itself,
which involves the exponential function and is embedded over the reals.
-/

namespace MedEngine

/-- `np.max` of an array, as used on the (always nonempty) curve arrays:
the fold of `max` over the list, seeded with the first element. -/
def npMax (x : List ℚ) : ℚ := x.foldl max (x.headD 0)

/-- `normalize` from `app.py` (lines 151-153):
`mx = float(np.max(x)) if np.max(x) > 0 else 1.0; return x / mx`. -/
def normalize (x : List ℚ) : List ℚ :=
  let mx : ℚ := if 0 < npMax x then npMax x else 1
  x.map (fun v => v / mx)

/-- `covered` from `app.py` (line 538):
`np.minimum(se_curve, counter_curve) if counter_med != "None" else np.zeros_like(se_curve)`.
The boolean records whether a counter medication is selected. -/
def covered (se counter : List ℚ) (hasCounter : Bool) : List ℚ :=
  if hasCounter then List.zipWith min se counter else se.map (fun _ => 0)

/-- Onset extraction from `app.py` (lines 518-520):
`se_threshold = np.max(se_curve) * 0.15`,
`onset_idx = np.where(se_curve > se_threshold)[0]`,
`se_onset_hour = t_plot[onset_idx[0]] if len(onset_idx) else 0.0`. -/
def se_onset_hour (t_plot se : List ℚ) : ℚ :=
  match se.findIdx? (fun v => decide (npMax se * (15 / 100) < v)) with
  | some i => t_plot.getD i 0
  | none => 0

/-- `optimal_counter_offset` from `app.py` (line 532):
`max(se_onset_hour - float(c["t_max"]), 0.0)`. -/
def optimal_counter_offset (onset_hour t_max : ℚ) : ℚ :=
  max (onset_hour - t_max) 0

/-- `optimal_counter_time` from `app.py` (line 533):
`dt_med + timedelta(hours=optimal_counter_offset)`, with timestamps
embedded as rational hour counts. -/
def optimal_counter_time (dt_med onset_hour t_max : ℚ) : ℚ :=
  dt_med + optimal_counter_offset onset_hour t_max

/-- Modelled from the spec: no coverage-percentage computation exists under
`src/` (`app.py` computes the mitigation curve but never integrates it).
Spec section 4.5: coverage percentage = `integral(mitigation) / integral(se)
* 100` with `mitigation[i] = min(se[i], counter[i])` pointwise, the integral
taken as a simple sum-times-step over the TimeGrid, and coverage defined as 0
when `integral(se) == 0`. -/
def coverage_percent (step : ℚ) (se counter : List ℚ) : ℚ :=
  let mitigation := List.zipWith min se counter
  let ise := step * se.sum
  let imit := step * mitigation.sum
  if ise = 0 then 0 else imit / ise * 100

/-- `np.gradient` of a curve over a uniformly spaced grid with step `h`:
central differences in the interior, one-sided differences at the two
boundary samples (0 for degenerate arrays of fewer than two samples, on
which `np.gradient` is not used by the engine). -/
def npGradient (h : ℚ) (x : List ℚ) : List ℚ :=
  (List.range x.length).map (fun i =>
    if x.length < 2 then 0
    else if i = 0 then (x.getD 1 0 - x.getD 0 0) / h
    else if i = x.length - 1 then
      (x.getD (x.length - 1) 0 - x.getD (x.length - 2) 0) / h
    else (x.getD (i + 1) 0 - x.getD (i - 1) 0) / (2 * h))

/-- Modelled from the spec: the rebound/crash side-effect derivation is
absent from `src/` (`app.py` implements only the trailing strategy). Spec
section 4.4: take the discrete gradient of the NORMALIZED primary curve;
where the gradient is negative AND the normalized primary value is below the
decline-threshold fraction `thr` of its own peak, the intensity equals
`abs(gradient)`, elsewhere zero. -/
def rebound_raw (h thr : ℚ) (p : List ℚ) : List ℚ :=
  let q := normalize p
  let g := npGradient h q
  (List.range q.length).map (fun i =>
    if g.getD i 0 < 0 ∧ q.getD i 0 < thr * npMax q then |g.getD i 0| else 0)

/-- Modelled from the spec: the rebound intensity curve is then normalized to
its own ceiling (spec section 4.4). -/
def rebound_curve (h thr : ℚ) (p : List ℚ) : List ℚ :=
  normalize (rebound_raw h thr p)

/-- `RISK_LEVELS` from `app_2.0.py` (line 110). -/
def RISK_LEVELS : List String := ["low", "med", "high", "severe"]

/-- `RISK_LEVELS.index(s)` from `app_2.0.py` (always called on one of the
four valid level strings). -/
def riskIndex (s : String) : ℕ := RISK_LEVELS.indexOf s

/-- `escalate` from `app_2.0.py` (lines 112-113):
`RISK_LEVELS[max(RISK_LEVELS.index(level), RISK_LEVELS.index(new_level))]`
(the out-of-range default is never reached on valid level strings). -/
def escalate (level new_level : String) : String :=
  RISK_LEVELS.getD (max (riskIndex level) (riskIndex new_level)) ""

/-- `PatientInputs` from `app_2.0.py` (lines 115-134): integers for the
vital-sign fields, rationals for the lab values, `Option` for the fields the
form leaves blank as `None`. -/
structure PatientInputs where
  age : Option ℤ
  weight_kg : Option ℚ
  pregnancy : String
  sbp : Option ℤ
  dbp : Option ℤ
  heart_rate : Option ℤ
  cardiac_disease : String
  glaucoma : String
  hyperthyroidism : String
  liver_disease_known : String
  alt : Option ℚ
  ast : Option ℚ
  bilirubin : Option ℚ
  egfr : Option ℚ
  maoi_last_14d : String
  substance_use_disorder : String
  severe_anxiety_agitation : String
  sleep_severe_insomnia : String

/-- The successive checks of `triage_clonazepam` (`app_2.0.py` lines
136-170), in source order; each list element performs one check's
conditional escalation of the running level. -/
def clonazepamSteps (p : PatientInputs) : List (String → String) :=
  [fun l => if p.liver_disease_known = "Yes" then escalate l "severe" else l,
   fun l => if p.glaucoma = "Acute narrow-angle" then escalate l "severe" else l,
   fun l => match p.alt with
     | some a => if 3 * 40 ≤ a then escalate l "high" else l
     | none => l,
   fun l => match p.ast with
     | some a => if 3 * 40 ≤ a then escalate l "high" else l
     | none => l,
   fun l => match p.bilirubin with
     | some b => if 2 ≤ b then escalate l "high" else l
     | none => l,
   fun l => match p.age with
     | some a => if 65 ≤ a then escalate l "med" else l
     | none => l,
   fun l => if p.pregnancy ≠ "No/Not applicable" then escalate l "med" else l]

/-- `triage_clonazepam` from `app_2.0.py` (lines 136-170), risk level only
(the flag strings do not influence the level): the checks run sequentially
starting from `"low"`. -/
def triage_clonazepam (p : PatientInputs) : String :=
  (clonazepamSteps p).foldl (fun l f => f l) "low"

/-- The successive checks of `triage_adderall` (`app_2.0.py` lines 172-236),
in source order; the blood-pressure and heart-rate checks are
`if`/`elif` ladders performing at most one escalation each. -/
def adderallSteps (p : PatientInputs) : List (String → String) :=
  [fun l => if p.maoi_last_14d = "Yes" then escalate l "severe" else l,
   fun l => if p.glaucoma = "Open-angle" ∨ p.glaucoma = "Acute narrow-angle" then
       escalate l "severe" else l,
   fun l => if p.hyperthyroidism = "Yes" then escalate l "severe" else l,
   fun l => if p.cardiac_disease = "Yes" then escalate l "severe" else l,
   fun l => if p.substance_use_disorder = "Yes" then escalate l "high" else l,
   fun l => if p.severe_anxiety_agitation = "Yes" then escalate l "high" else l,
   fun l => match p.sbp, p.dbp with
     | some s, some d =>
       if 160 ≤ s ∨ 100 ≤ d then escalate l "severe"
       else if 140 ≤ s ∨ 90 ≤ d then escalate l "high"
       else if 130 ≤ s ∨ 80 ≤ d then escalate l "med"
       else l
     | _, _ => l,
   fun l => match p.heart_rate with
     | some hr =>
       if 120 ≤ hr then escalate l "high"
       else if 100 ≤ hr then escalate l "med"
       else l
     | none => l,
   fun l => match p.egfr with
     | some e => if e < 15 then escalate l "high" else l
     | none => l,
   fun l => if p.sleep_severe_insomnia = "Yes" then escalate l "med" else l,
   fun l => match p.age with
     | some a => if a < 6 then escalate l "high" else l
     | none => l]

/-- `triage_adderall` from `app_2.0.py` (lines 172-236), risk level only:
the checks run sequentially starting from `"low"`. -/
def triage_adderall (p : PatientInputs) : String :=
  (adderallSteps p).foldl (fun l f => f l) "low"

/-- The effective absorption rate used inside `pk_model` (`app.py` lines
147-148): `if abs(ka - ke) < 1e-9: ka = ka + 1e-6`. -/
noncomputable def pk_ka_eff (ka ke : ℝ) : ℝ :=
  if |ka - ke| < 1e-9 then ka + 1e-6 else ka

/-- `pk_model` from `app.py` (lines 145-149) at a single time sample:
`t = np.maximum(t_hours, 0.0)`, then
`(dose * ka / (ka - ke)) * (np.exp(-ke * t) - np.exp(-ka * t))` with the
guard-perturbed `ka`. -/
noncomputable def pk_pt (t dose ka ke : ℝ) : ℝ :=
  let teff := max t 0
  let ka2 := pk_ka_eff ka ke
  (dose * ka2 / (ka2 - ke)) * (Real.exp (-ke * teff) - Real.exp (-ka2 * teff))

/-- `pk_model` from `app.py` applied elementwise to a time-since-dose
array. -/
noncomputable def pk_model (t : List ℝ) (dose ka ke : ℝ) : List ℝ :=
  t.map (fun x => pk_pt x dose ka ke)

/-- The analytic peak time of the one-compartment concentration curve,
`ln(ka/ke) / (ka - ke)` (spec section 4.6 and glossary `t_max`). -/
noncomputable def tpeak (ka ke : ℝ) : ℝ := Real.log (ka / ke) / (ka - ke)

/-- The exponential part of the concentration curve,
`exp(-ke*t) - exp(-a*t)`; `pk_pt` is a constant multiple of it. -/
noncomputable def gexp (a ke : ℝ) (t : ℝ) : ℝ :=
  Real.exp (-ke * t) - Real.exp (-a * t)

/-- The trailing side-effect curve of `app.py` line 515 sampled on the
uniform grid `t_i = i*h`: `pk_model(t_plot - lag, dose, ka_med, ke_med)` at
sample `i` (same kinetic parameters as the primary, time shifted backward by
the lag, reduced nominal dose — 80 versus the primary's 100 in the source).
The `normalize` wrapper of line 515 divides every sample by one positive
scalar, which the peak-alignment theorem accounts for explicitly. -/
noncomputable def seSample (ka ke dose lag h : ℝ) (i : ℕ) : ℝ :=
  pk_pt ((i : ℝ) * h - lag) dose ka ke

end MedEngine

namespace MedEngine

lemma max_div_of_pos (a b m : ℚ) (hm : 0 < m) :
    max (a / m) (b / m) = max a b / m := by
  have hmono : Monotone (fun v : ℚ => v / m) := monotone_id.div_const hm.le
  exact (hmono.map_max).symm

lemma foldl_max_map_div (m : ℚ) (hm : 0 < m) :
    ∀ (x : List ℚ) (a : ℚ),
      (x.map (fun v => v / m)).foldl max (a / m) = (x.foldl max a) / m := by
  intro x
  induction x with
  | nil => intro a; rfl
  | cons h t ih =>
    intro a
    simp only [List.map_cons, List.foldl_cons, max_div_of_pos a h m hm, ih]

lemma npMax_map_div (x : List ℚ) (m : ℚ) (hm : 0 < m) :
    npMax (x.map (fun v => v / m)) = npMax x / m := by
  cases x with
  | nil => simp [npMax]
  | cons h t =>
    simp only [npMax, List.map_cons, List.headD_cons, List.foldl_cons]
    have := foldl_max_map_div m hm t (max h h)
    simpa [max_self] using this

lemma foldl_max_of_all_zero :
    ∀ (x : List ℚ), (∀ v ∈ x, v = 0) → x.foldl max 0 = 0 := by
  intro x
  induction x with
  | nil => intro _; rfl
  | cons h t ih =>
    intro hx
    have hh : h = 0 := hx h (List.mem_cons_self _ _)
    simp only [List.foldl_cons, hh, max_self]
    exact ih (fun v hv => hx v (List.mem_cons_of_mem _ hv))

lemma npMax_of_all_zero (x : List ℚ) (hx : ∀ v ∈ x, v = 0) : npMax x = 0 := by
  cases x with
  | nil => rfl
  | cons h t =>
    have hh : h = 0 := hx h (List.mem_cons_self _ _)
    simp only [npMax, List.headD_cons, List.foldl_cons, hh, max_self]
    exact foldl_max_of_all_zero t (fun v hv => hx v (List.mem_cons_of_mem _ hv))

lemma sum_zipWith_min_nonneg :
    ∀ (a b : List ℚ), (∀ v ∈ a, 0 ≤ v) → (∀ v ∈ b, 0 ≤ v) →
      0 ≤ (List.zipWith min a b).sum := by
  intro a
  induction a with
  | nil => intro b _ _; simp
  | cons x xs ih =>
    intro b ha hb
    cases b with
    | nil => simp
    | cons y ys =>
      simp only [List.zipWith_cons_cons, List.sum_cons]
      have hx : 0 ≤ x := ha x (List.mem_cons_self _ _)
      have hy : 0 ≤ y := hb y (List.mem_cons_self _ _)
      have h1 : 0 ≤ min x y := le_min hx hy
      have h2 : 0 ≤ (List.zipWith min xs ys).sum :=
        ih ys (fun v hv => ha v (List.mem_cons_of_mem _ hv))
          (fun v hv => hb v (List.mem_cons_of_mem _ hv))
      linarith

lemma sum_zipWith_min_le_left :
    ∀ (a b : List ℚ), a.length = b.length →
      (List.zipWith min a b).sum ≤ a.sum := by
  intro a
  induction a with
  | nil => intro b _; simp
  | cons x xs ih =>
    intro b hlen
    cases b with
    | nil => simp at hlen
    | cons y ys =>
      simp only [List.zipWith_cons_cons, List.sum_cons]
      have h1 : min x y ≤ x := min_le_left _ _
      have h2 : (List.zipWith min xs ys).sum ≤ xs.sum := by
        apply ih
        simpa using hlen
      linarith

lemma zipWith_min_of_le :
    ∀ {a b : List ℚ}, List.Forall₂ (fun x y => x ≤ y) a b →
      List.zipWith min a b = a := by
  intro a b h
  induction h with
  | nil => rfl
  | cons hxy _ ih => simp [List.zipWith_cons_cons, min_eq_left hxy, ih]

lemma sum_zipWith_min_zero_right :
    ∀ (a b : List ℚ), (∀ v ∈ a, 0 ≤ v) → (∀ v ∈ b, v = 0) →
      (List.zipWith min a b).sum = 0 := by
  intro a
  induction a with
  | nil => intro b _ _; simp
  | cons x xs ih =>
    intro b ha hb
    cases b with
    | nil => simp
    | cons y ys =>
      simp only [List.zipWith_cons_cons, List.sum_cons]
      have hx : 0 ≤ x := ha x (List.mem_cons_self _ _)
      have hy : y = 0 := hb y (List.mem_cons_self _ _)
      have h1 : min x y = 0 := by rw [hy]; exact min_eq_right hx
      have h2 : (List.zipWith min xs ys).sum = 0 :=
        ih ys (fun v hv => ha v (List.mem_cons_of_mem _ hv))
          (fun v hv => hb v (List.mem_cons_of_mem _ hv))
      rw [h1, h2, add_zero]

lemma getD_map_range (n i : ℕ) (f : ℕ → ℚ) (hi : i < n) :
    ((List.range n).map f).getD i 0 = f i := by
  have hlen : i < ((List.range n).map f).length := by
    simpa using hi
  rw [List.getD_eq_getElem _ _ hlen, List.getElem_map, List.getElem_range]

lemma getD_map_div (x : List ℚ) (m : ℚ) (i : ℕ) (hi : i < x.length) :
    (x.map (fun v => v / m)).getD i 0 = x.getD i 0 / m := by
  have hlen : i < (x.map (fun v => v / m)).length := by simpa using hi
  rw [List.getD_eq_getElem _ _ hlen, List.getElem_map, List.getD_eq_getElem _ _ hi]

lemma normalize_getD_zero (x : List ℚ) (i : ℕ) (hx : x.getD i 0 = 0) :
    (normalize x).getD i 0 = 0 := by
  have hnorm : normalize x =
      x.map (fun v => v / (if 0 < npMax x then npMax x else 1)) := rfl
  by_cases hi : i < x.length
  · rw [hnorm, getD_map_div _ _ _ hi, hx, zero_div]
  · have hlen : (normalize x).length ≤ i := by
      simpa [normalize] using le_of_not_lt hi
    exact List.getD_eq_default _ _ hlen

lemma pk_ka_eff_sub_ne (ka ke : ℝ) : pk_ka_eff ka ke - ke ≠ 0 := by
  unfold pk_ka_eff
  split
  · rename_i h
    have h1 : -(1e-9 : ℝ) < ka - ke := (abs_lt.mp h).1
    have : (0 : ℝ) < ka + 1e-6 - ke := by linarith
    exact ne_of_gt this
  · rename_i h
    have h1 : (1e-9 : ℝ) ≤ |ka - ke| := le_of_not_lt h
    have h2 : ka - ke ≠ 0 := by
      intro hz
      rw [hz, abs_zero] at h1
      linarith
    exact h2

lemma pk_ka_eff_pos (ka ke : ℝ) (hka : 0 < ka) : 0 < pk_ka_eff ka ke := by
  unfold pk_ka_eff
  split
  · linarith
  · exact hka

lemma pk_pt_nonneg (t dose ka ke : ℝ) (hd : 0 < dose) (hka : 0 < ka)
    (hke : 0 < ke) : 0 ≤ pk_pt t dose ka ke := by
  have ha : 0 < pk_ka_eff ka ke := pk_ka_eff_pos ka ke hka
  have hne : pk_ka_eff ka ke - ke ≠ 0 := pk_ka_eff_sub_ne ka ke
  have hs : 0 ≤ max t 0 := le_max_right t 0
  show 0 ≤ (dose * pk_ka_eff ka ke / (pk_ka_eff ka ke - ke)) *
    (Real.exp (-ke * max t 0) - Real.exp (-pk_ka_eff ka ke * max t 0))
  set a := pk_ka_eff ka ke with hadef
  rcases lt_or_gt_of_ne (fun h : a = ke => hne (by rw [h, sub_self])) with hlt | hgt
  · -- a < ke: coefficient ≤ 0 and exp difference ≤ 0
    have hcoef : dose * a / (a - ke) ≤ 0 :=
      div_nonpos_of_nonneg_of_nonpos (mul_nonneg hd.le ha.le)
        (by linarith)
    have hexp : Real.exp (-ke * max t 0) - Real.exp (-a * max t 0) ≤ 0 := by
      have : -ke * max t 0 ≤ -a * max t 0 :=
        mul_le_mul_of_nonneg_right (by linarith) hs
      have := Real.exp_le_exp.mpr this
      linarith
    have hprod := mul_nonneg (neg_nonneg.mpr hcoef) (neg_nonneg.mpr hexp)
    rw [neg_mul_neg] at hprod
    exact hprod
  · -- ke < a
    have hcoef : 0 ≤ dose * a / (a - ke) :=
      div_nonneg (mul_nonneg hd.le ha.le) (by linarith)
    have hexp : 0 ≤ Real.exp (-ke * max t 0) - Real.exp (-a * max t 0) := by
      have : -a * max t 0 ≤ -ke * max t 0 :=
        mul_le_mul_of_nonneg_right (by linarith) hs
      have := Real.exp_le_exp.mpr this
      linarith
    exact mul_nonneg hcoef hexp

lemma pk_pt_of_nonpos (t dose ka ke : ℝ) (ht : t ≤ 0) :
    pk_pt t dose ka ke = 0 := by
  show (dose * pk_ka_eff ka ke / (pk_ka_eff ka ke - ke)) *
    (Real.exp (-ke * max t 0) - Real.exp (-pk_ka_eff ka ke * max t 0)) = 0
  rw [max_eq_right ht]
  simp

lemma hasDerivAt_gexp (a ke t : ℝ) :
    HasDerivAt (gexp a ke)
      (a * Real.exp (-a * t) - ke * Real.exp (-ke * t)) t := by
  have h1 : HasDerivAt (fun u : ℝ => Real.exp (-ke * u))
      (Real.exp (-ke * t) * (-ke)) t := by
    have hlin : HasDerivAt (fun u : ℝ => -ke * u) (-ke) t := by
      simpa using (hasDerivAt_id t).const_mul (-ke)
    exact hlin.exp
  have h2 : HasDerivAt (fun u : ℝ => Real.exp (-a * u))
      (Real.exp (-a * t) * (-a)) t := by
    have hlin : HasDerivAt (fun u : ℝ => -a * u) (-a) t := by
      simpa using (hasDerivAt_id t).const_mul (-a)
    exact hlin.exp
  have h3 := h1.sub h2
  convert h3 using 1
  ring

lemma deriv_gexp (a ke t : ℝ) :
    deriv (gexp a ke) t = a * Real.exp (-a * t) - ke * Real.exp (-ke * t) :=
  (hasDerivAt_gexp a ke t).deriv

lemma gexp_deriv_pos (a ke t : ℝ) (hke : 0 < ke) (hlt : ke < a)
    (ht : t < tpeak a ke) :
    0 < a * Real.exp (-a * t) - ke * Real.exp (-ke * t) := by
  have ha : 0 < a := lt_trans hke hlt
  have hsub : 0 < a - ke := sub_pos.mpr hlt
  have hlog : Real.log (a / ke) = Real.log a - Real.log ke :=
    Real.log_div (ne_of_gt ha) (ne_of_gt hke)
  have htmul : t * (a - ke) < Real.log (a / ke) := by
    have := (lt_div_iff₀ hsub).mp ht
    linarith [this]
  have hkey : Real.log (ke * Real.exp (-ke * t)) <
      Real.log (a * Real.exp (-a * t)) := by
    rw [Real.log_mul (ne_of_gt hke) (Real.exp_ne_zero _),
      Real.log_mul (ne_of_gt ha) (Real.exp_ne_zero _),
      Real.log_exp, Real.log_exp]
    rw [hlog] at htmul
    linarith
  have hpos1 : 0 < ke * Real.exp (-ke * t) :=
    mul_pos hke (Real.exp_pos _)
  have hpos2 : 0 < a * Real.exp (-a * t) :=
    mul_pos ha (Real.exp_pos _)
  have := (Real.log_lt_log_iff hpos1 hpos2).mp hkey
  linarith

lemma gexp_deriv_neg (a ke t : ℝ) (hke : 0 < ke) (hlt : ke < a)
    (ht : tpeak a ke < t) :
    a * Real.exp (-a * t) - ke * Real.exp (-ke * t) < 0 := by
  have ha : 0 < a := lt_trans hke hlt
  have hsub : 0 < a - ke := sub_pos.mpr hlt
  have hlog : Real.log (a / ke) = Real.log a - Real.log ke :=
    Real.log_div (ne_of_gt ha) (ne_of_gt hke)
  have htmul : Real.log (a / ke) < t * (a - ke) := by
    have := (div_lt_iff₀ hsub).mp ht
    linarith [this]
  have hkey : Real.log (a * Real.exp (-a * t)) <
      Real.log (ke * Real.exp (-ke * t)) := by
    rw [Real.log_mul (ne_of_gt hke) (Real.exp_ne_zero _),
      Real.log_mul (ne_of_gt ha) (Real.exp_ne_zero _),
      Real.log_exp, Real.log_exp]
    rw [hlog] at htmul
    linarith
  have hpos1 : 0 < ke * Real.exp (-ke * t) :=
    mul_pos hke (Real.exp_pos _)
  have hpos2 : 0 < a * Real.exp (-a * t) :=
    mul_pos ha (Real.exp_pos _)
  have := (Real.log_lt_log_iff hpos2 hpos1).mp hkey
  linarith

lemma gexp_continuous (a ke : ℝ) : Continuous (gexp a ke) := by
  unfold gexp
  fun_prop

lemma gexp_strictMonoOn (a ke : ℝ) (hke : 0 < ke) (hlt : ke < a) :
    StrictMonoOn (gexp a ke) (Set.Icc 0 (tpeak a ke)) := by
  apply strictMonoOn_of_deriv_pos (convex_Icc _ _)
    (gexp_continuous a ke).continuousOn
  intro x hx
  rw [interior_Icc] at hx
  rw [deriv_gexp]
  exact gexp_deriv_pos a ke x hke hlt hx.2

lemma gexp_strictAntiOn (a ke : ℝ) (hke : 0 < ke) (hlt : ke < a) :
    StrictAntiOn (gexp a ke) (Set.Ici (tpeak a ke)) := by
  apply strictAntiOn_of_deriv_neg (convex_Ici _)
    (gexp_continuous a ke).continuousOn
  intro x hx
  rw [interior_Ici] at hx
  rw [deriv_gexp]
  exact gexp_deriv_neg a ke x hke hlt hx

lemma gexp_zero (a ke : ℝ) : gexp a ke 0 = 0 := by
  simp [gexp]

lemma gexp_pos (a ke t : ℝ) (hke : 0 < ke) (hlt : ke < a)
    (h0 : 0 < t) (ht : t ≤ tpeak a ke) : 0 < gexp a ke t := by
  have h0m : (0 : ℝ) ∈ Set.Icc 0 (tpeak a ke) :=
    ⟨le_rfl, le_trans h0.le ht⟩
  have htm : t ∈ Set.Icc (0 : ℝ) (tpeak a ke) := ⟨h0.le, ht⟩
  have := gexp_strictMonoOn a ke hke hlt h0m htm h0
  rwa [gexp_zero] at this

lemma pk_ka_eff_of_sep (ka ke : ℝ) (hsep : ke + 1e-9 ≤ ka) :
    pk_ka_eff ka ke = ka := by
  unfold pk_ka_eff
  rw [if_neg]
  rw [abs_sub_comm, abs_sub_lt_iff]
  push_neg
  intro h1
  linarith

lemma pk_pt_eq_gexp (t dose ka ke : ℝ) (hsep : ke + 1e-9 ≤ ka) :
    pk_pt t dose ka ke = (dose * ka / (ka - ke)) * gexp ka ke (max t 0) := by
  unfold pk_pt gexp
  rw [pk_ka_eff_of_sep ka ke hsep]

lemma pk_coeff_pos (dose ka ke : ℝ) (hke : 0 < ke) (hsep : ke + 1e-9 ≤ ka)
    (hdose : 0 < dose) : 0 < dose * ka / (ka - ke) := by
  have hka : 0 < ka := by linarith
  exact div_pos (mul_pos hdose hka) (by linarith)

lemma pk_pt_strict_mono (x y dose ka ke : ℝ) (hke : 0 < ke)
    (hsep : ke + 1e-9 ≤ ka) (hdose : 0 < dose)
    (hx : 0 ≤ x) (hxy : x < y) (hy : y ≤ tpeak ka ke) :
    pk_pt x dose ka ke < pk_pt y dose ka ke := by
  have hlt : ke < ka := by linarith
  rw [pk_pt_eq_gexp _ _ _ _ hsep, pk_pt_eq_gexp _ _ _ _ hsep,
    max_eq_left hx, max_eq_left (le_trans hx hxy.le)]
  exact mul_lt_mul_of_pos_left
    (gexp_strictMonoOn ka ke hke hlt ⟨hx, le_trans hxy.le hy⟩
      ⟨le_trans hx hxy.le, hy⟩ hxy)
    (pk_coeff_pos dose ka ke hke hsep hdose)

lemma pk_pt_strict_anti (x y dose ka ke : ℝ) (hke : 0 < ke)
    (hsep : ke + 1e-9 ≤ ka) (hdose : 0 < dose)
    (htp : 0 < tpeak ka ke) (hx : tpeak ka ke ≤ x) (hxy : x < y) :
    pk_pt y dose ka ke < pk_pt x dose ka ke := by
  have hlt : ke < ka := by linarith
  have hx0 : 0 ≤ x := le_trans htp.le hx
  rw [pk_pt_eq_gexp _ _ _ _ hsep, pk_pt_eq_gexp _ _ _ _ hsep,
    max_eq_left hx0, max_eq_left (le_trans hx0 hxy.le)]
  exact mul_lt_mul_of_pos_left
    (gexp_strictAntiOn ka ke hke hlt hx (le_trans hx hxy.le) hxy)
    (pk_coeff_pos dose ka ke hke hsep hdose)

lemma pk_pt_pos (x dose ka ke : ℝ) (hke : 0 < ke)
    (hsep : ke + 1e-9 ≤ ka) (hdose : 0 < dose)
    (h0 : 0 < x) (hx : x ≤ tpeak ka ke) : 0 < pk_pt x dose ka ke := by
  have hlt : ke < ka := by linarith
  rw [pk_pt_eq_gexp _ _ _ _ hsep, max_eq_left h0.le]
  exact mul_pos (pk_coeff_pos dose ka ke hke hsep hdose)
    (gexp_pos ka ke x hke hlt h0 hx)

lemma pk_pt_zero_of_nonpos (x dose ka ke : ℝ) (hx : x ≤ 0) :
    pk_pt x dose ka ke = 0 := by
  show (dose * pk_ka_eff ka ke / (pk_ka_eff ka ke - ke)) *
    (Real.exp (-ke * max x 0) - Real.exp (-pk_ka_eff ka ke * max x 0)) = 0
  rw [max_eq_right hx]
  simp

lemma se_argmax_near_peak (ka ke dose lag h : ℝ) (N : ℕ)
    (hke : 0 < ke) (hsep : ke + 1e-9 ≤ ka) (hdose : 0 < dose)
    (hlag : 0 ≤ lag) (hh : 0 < h) (hht : h ≤ tpeak ka ke)
    (hwin : tpeak ka ke + lag + 2 * h ≤ (N : ℝ) * h) :
    ∀ s, s < N →
      (∀ i, i < N → seSample ka ke dose lag h i ≤ seSample ka ke dose lag h s) →
      |(s : ℝ) * h - (tpeak ka ke + lag)| ≤ h := by
  intro s hsN hmax
  have htp : 0 < tpeak ka ke := lt_of_lt_of_le hh hht
  set T := tpeak ka ke + lag with hT
  -- a grid point strictly inside (lag, lag + tpeak]
  set i0 : ℕ := Nat.floor (lag / h) + 1 with hi0
  have hfl : (Nat.floor (lag / h) : ℝ) ≤ lag / h :=
    Nat.floor_le (div_nonneg hlag hh.le)
  have hfl2 : lag / h < (Nat.floor (lag / h) : ℝ) + 1 :=
    Nat.lt_floor_add_one (lag / h)
  have hi0r : (i0 : ℝ) = (Nat.floor (lag / h) : ℝ) + 1 := by
    rw [hi0]; push_cast; ring
  have hi0lo : lag < (i0 : ℝ) * h := by
    rw [hi0r]
    calc lag = (lag / h) * h := by field_simp
    _ < ((Nat.floor (lag / h) : ℝ) + 1) * h :=
        mul_lt_mul_of_pos_right hfl2 hh
  have hi0hi : (i0 : ℝ) * h ≤ lag + h := by
    rw [hi0r]
    have : (Nat.floor (lag / h) : ℝ) * h ≤ lag := by
      calc (Nat.floor (lag / h) : ℝ) * h ≤ (lag / h) * h :=
        mul_le_mul_of_nonneg_right hfl hh.le
      _ = lag := by field_simp
    linarith [this]
  have hi0N : i0 < N := by
    have hr : (i0 : ℝ) * h < (N : ℝ) * h := by
      have : (i0 : ℝ) * h ≤ lag + h := hi0hi
      have h2 : lag + h < T + 2 * h := by
        rw [hT]; linarith
      linarith [hwin]
    have := lt_of_mul_lt_mul_right hr hh.le
    exact_mod_cast this
  -- the maximum value is positive, so the argmax time is strictly past lag
  have hx0 : 0 < (i0 : ℝ) * h - lag := by linarith [hi0lo]
  have hx0le : (i0 : ℝ) * h - lag ≤ tpeak ka ke := by
    have := hi0hi
    linarith [hht]
  have hFi0 : 0 < seSample ka ke dose lag h i0 := by
    unfold seSample
    exact pk_pt_pos _ dose ka ke hke hsep hdose hx0 hx0le
  have hFs : 0 < seSample ka ke dose lag h s :=
    lt_of_lt_of_le hFi0 (hmax i0 hi0N)
  have hxs : 0 < (s : ℝ) * h - lag := by
    by_contra hc
    push_neg at hc
    have : seSample ka ke dose lag h s = 0 := by
      unfold seSample
      exact pk_pt_zero_of_nonpos _ dose ka ke (by linarith)
    linarith [hFs, this]
  rw [abs_le]
  constructor
  · -- s*h ≥ T - h, else s+1 is a strictly better sample
    by_contra hc
    push_neg at hc
    have hsh : (s : ℝ) * h + h < T := by linarith
    have hs1N : s + 1 < N := by
      have hr : ((s : ℝ) + 1) * h < (N : ℝ) * h := by
        have : ((s : ℝ) + 1) * h < T := by ring_nf; ring_nf at hsh; linarith
        linarith [hwin, htp, hh]
      have := lt_of_mul_lt_mul_right hr hh.le
      exact_mod_cast this
    have hstep : seSample ka ke dose lag h s <
        seSample ka ke dose lag h (s + 1) := by
      unfold seSample
      apply pk_pt_strict_mono _ _ dose ka ke hke hsep hdose hxs.le
      · push_cast
        linarith
      · push_cast
        rw [hT] at hsh
        linarith
    have := hmax (s + 1) hs1N
    linarith
  · -- s*h ≤ T + h, else s-1 is a strictly better sample
    by_contra hc
    push_neg at hc
    have hsh : T + h < (s : ℝ) * h := by linarith
    have hs1 : 1 ≤ s := by
      by_contra hs0
      push_neg at hs0
      interval_cases s
      simp at hsh
      rw [hT] at hsh
      linarith
    have hjN : s - 1 < N := lt_of_le_of_lt (Nat.sub_le s 1) hsN
    have hjr : ((s - 1 : ℕ) : ℝ) = (s : ℝ) - 1 := by
      push_cast [Nat.cast_sub hs1]
      ring
    have hstep : seSample ka ke dose lag h s <
        seSample ka ke dose lag h (s - 1) := by
      unfold seSample
      apply pk_pt_strict_anti _ _ dose ka ke hke hsep hdose htp
      · rw [hjr]
        rw [hT] at hsh
        have : tpeak ka ke + lag + h < (s : ℝ) * h := hsh
        have hgoal : tpeak ka ke ≤ ((s : ℝ) - 1) * h - lag := by
          have hexp : ((s : ℝ) - 1) * h = (s : ℝ) * h - h := by ring
          rw [hexp]
          linarith
        exact hgoal
      · rw [hjr]
        have : ((s : ℝ) - 1) * h < (s : ℝ) * h := by nlinarith [hh]
        linarith
    have := hmax (s - 1) hjN
    linarith

/-- C8: for the trailing side-effect strategy — the PK generator re-evaluated
on the same kinetic parameters with the time array shifted backward by the
lag and a reduced nominal dose — every maximizing sample (argmax) of the
side-effect curve on the uniform grid lies within one grid step of the
primary curve's peak time plus the lag (the primary peak time being the
model's `t_max = ln(ka/ke)/(ka-ke)`, per the spec glossary); this is
unaffected by the final `normalize`, which divides all samples by one
positive scalar. Hypotheses: valid separated rates, positive dose,
non-negative lag, and a grid fine enough and window wide enough to contain
the shifted peak (all satisfied by the source's 48 h / 1200-sample grid for
a Scenario-A-like primary with lag 1.5 h). -/
theorem se_peak_spec (ka ke dose lag h : ℝ) (N : ℕ)
    (hke : 0 < ke) (hsep : ke + 1e-9 ≤ ka) (hdose : 0 < dose)
    (hlag : 0 ≤ lag) (hh : 0 < h) (hht : h ≤ tpeak ka ke)
    (hwin : tpeak ka ke + lag + 2 * h ≤ (N : ℝ) * h) :
    (∀ s, s < N →
      (∀ i, i < N → seSample ka ke dose lag h i ≤ seSample ka ke dose lag h s) →
      |(s : ℝ) * h - (tpeak ka ke + lag)| ≤ h) ∧
    (∀ M, 0 < M → ∀ s, s < N →
      (∀ i, i < N →
        seSample ka ke dose lag h i / M ≤ seSample ka ke dose lag h s / M) →
      |(s : ℝ) * h - (tpeak ka ke + lag)| ≤ h) := by
  have hbase := se_argmax_near_peak ka ke dose lag h N hke hsep hdose hlag hh
    hht hwin
  refine ⟨hbase, ?_⟩
  intro M hM s hsN hmax
  apply hbase s hsN
  intro i hiN
  exact (div_le_div_iff_of_pos_right hM).mp (hmax i hiN)

/-- C8, witness: instance with ka = 2, ke = 1, dose 100, lag 1, grid step
1/2 and 10 samples; the peak `tpeak 2 1 = ln 2` sits inside the window. -/
theorem se_peak_spec_witness :
    (∀ s, s < 10 →
      (∀ i, i < 10 →
        seSample 2 1 100 1 (1/2) i ≤ seSample 2 1 100 1 (1/2) s) →
      |(s : ℝ) * (1/2) - (tpeak 2 1 + 1)| ≤ 1/2) ∧
    (∀ M, 0 < M → ∀ s, s < 10 →
      (∀ i, i < 10 →
        seSample 2 1 100 1 (1/2) i / M ≤ seSample 2 1 100 1 (1/2) s / M) →
      |(s : ℝ) * (1/2) - (tpeak 2 1 + 1)| ≤ 1/2) :=
  se_peak_spec 2 1 100 1 (1/2) 10 (by norm_num) (by norm_num) (by norm_num)
    (by norm_num) (by norm_num)
    (by
      have hlog := Real.log_two_gt_d9
      unfold tpeak
      norm_num
      linarith)
    (by
      have hlog := Real.log_two_lt_d9
      unfold tpeak
      norm_num
      linarith)

/-- C1: for every dose > 0, ka > 0, ke > 0 with ka different from ke, the PK
curve generator returns a non-negative value at every time-since-dose sample,
and returns exactly 0 at every sample with t <= 0 (pre-dose samples clamp to
t_eff = 0, giving C = 0). -/
theorem pk_model_spec (dose ka ke : ℝ) (ts : List ℝ)
    (hd : 0 < dose) (hka : 0 < ka) (hke : 0 < ke) (hne : ka ≠ ke) :
    (∀ v ∈ pk_model ts dose ka ke, 0 ≤ v) ∧
    (∀ i, i < ts.length → ts.getD i 0 ≤ 0 →
      (pk_model ts dose ka ke).getD i 0 = 0) := by
  constructor
  · intro v hv
    rw [pk_model, List.mem_map] at hv
    obtain ⟨x, _, rfl⟩ := hv
    exact pk_pt_nonneg x dose ka ke hd hka hke
  · intro i hi ht
    have hlen : i < (pk_model ts dose ka ke).length := by
      simpa [pk_model] using hi
    rw [List.getD_eq_getElem _ _ hlen]
    show (ts.map (fun x => pk_pt x dose ka ke))[i] = 0
    rw [List.getElem_map]
    rw [List.getD_eq_getElem _ _ hi] at ht
    exact pk_pt_of_nonpos _ dose ka ke ht

/-- C1, witness: instance on the time array `[-1, 2]` with dose 100, ka 2,
ke 1. -/
theorem pk_model_spec_witness :
    (∀ v ∈ pk_model [-1, 2] 100 2 1, 0 ≤ v) ∧
    (∀ i, i < ([-1, 2] : List ℝ).length → ([-1, 2] : List ℝ).getD i 0 ≤ 0 →
      (pk_model [-1, 2] 100 2 1).getD i 0 = 0) :=
  pk_model_spec 100 2 1 [-1, 2] (by norm_num) (by norm_num) (by norm_num)
    (by norm_num)

/-- C2: for every ka > 0 and ke > 0 — including the degenerate case
`|ka - ke| < 1e-9`, which is handled by perturbing ka by 1e-6 before
dividing, not by rejection — the divisor `ka - ke` after the guard is
nonzero on every execution path, so `pk_model` never divides by zero. -/
theorem pk_divisor_spec (ka ke : ℝ) (hka : 0 < ka) (hke : 0 < ke) :
    pk_ka_eff ka ke - ke ≠ 0 :=
  pk_ka_eff_sub_ne ka ke

/-- C2, witness: instance at ka = 3, ke = 1. -/
theorem pk_divisor_spec_witness : pk_ka_eff 3 1 - 1 ≠ 0 :=
  pk_divisor_spec 3 1 (by norm_num) (by norm_num)

/-- C3, counterexample: the claim asserts the normalizer rescales to a target
ceiling of 100, so that `max (normalize curve) = 100` whenever `max curve > 0`.
On the curve `[2, 4]` the implementation returns a curve with maximum 1,
not 100: `normalize` divides by the maximum and takes no ceiling argument. -/
theorem normalize_claim_counterexample :
    npMax (normalize [2, 4]) = 1 ∧ npMax (normalize [2, 4]) ≠ 100 := by
  norm_num [npMax, normalize]

/-- C3, amended: for every curve with positive maximum, `normalize` returns
`curve / max(curve)` (ceiling 1, not 100 — the implementation takes no ceiling
parameter), and the maximum of the result is exactly 1; an all-zero curve is
returned unchanged (the divisor guard substitutes 1). -/
theorem normalize_spec (x : List ℚ) :
    (0 < npMax x →
      normalize x = x.map (fun v => v / npMax x) ∧ npMax (normalize x) = 1) ∧
    ((∀ v ∈ x, v = 0) → normalize x = x) := by
  constructor
  · intro hpos
    have h1 : normalize x = x.map (fun v => v / npMax x) := by
      simp only [normalize, if_pos hpos]
    refine ⟨h1, ?_⟩
    rw [h1, npMax_map_div x _ hpos, div_self (ne_of_gt hpos)]
  · intro hz
    have h0 : npMax x = 0 := npMax_of_all_zero x hz
    simp only [normalize, h0]
    norm_num

/-- C3, witness: instance of the amended theorem on the curve `[2, 4]`. -/
theorem normalize_spec_witness :
    normalize [2, 4] = [2, 4].map (fun v => v / npMax [2, 4]) ∧
      npMax (normalize [2, 4]) = 1 :=
  (normalize_spec [2, 4]).1 (by norm_num [npMax])

/-- C4: with a counter medication selected, the mitigation curve `covered` is
the pointwise minimum of the side-effect and counter curves, hence bounded by
each of them at every sample; with no counter medication it is identically
zero. -/
theorem covered_spec (se counter : List ℚ) (i : ℕ)
    (h1 : i < se.length) (h2 : i < counter.length) :
    (covered se counter true).getD i 0 = min (se.getD i 0) (counter.getD i 0) ∧
    (covered se counter true).getD i 0 ≤ se.getD i 0 ∧
    (covered se counter true).getD i 0 ≤ counter.getD i 0 ∧
    (∀ v ∈ covered se counter false, v = 0) := by
  have hlen : i < (List.zipWith min se counter).length := by
    rw [List.length_zipWith]; exact lt_min h1 h2
  have hmain :
      (covered se counter true).getD i 0 = min (se.getD i 0) (counter.getD i 0) := by
    show (List.zipWith min se counter).getD i 0 = _
    rw [List.getD_eq_getElem _ _ hlen, List.getD_eq_getElem _ _ h1,
      List.getD_eq_getElem _ _ h2]
    exact List.getElem_zipWith
  refine ⟨hmain, ?_, ?_, ?_⟩
  · rw [hmain]; exact min_le_left _ _
  · rw [hmain]; exact min_le_right _ _
  · intro v hv
    have h : covered se counter false = se.map (fun _ => 0) := rfl
    rw [h, List.mem_map] at hv
    obtain ⟨a, _, rfl⟩ := hv
    rfl

/-- C4, witness: instance on the curves `[3, 1]` and `[2, 5]` at sample 0. -/
theorem covered_spec_witness :
    (covered [3, 1] [2, 5] true).getD 0 0 =
        min (([3, 1] : List ℚ).getD 0 0) (([2, 5] : List ℚ).getD 0 0) ∧
      (covered [3, 1] [2, 5] true).getD 0 0 ≤ ([3, 1] : List ℚ).getD 0 0 ∧
      (covered [3, 1] [2, 5] true).getD 0 0 ≤ ([2, 5] : List ℚ).getD 0 0 ∧
      (∀ v ∈ covered [3, 1] [2, 5] false, v = 0) :=
  covered_spec [3, 1] [2, 5] 0 (by decide) (by decide)

/-- C5, counterexample: with side-effect curve `[0]` and counter curve `[0]`,
the counter curve is `≥` the side-effect curve at every sample, yet the
coverage percentage is 0 (the `integral(se) == 0` guard fires), not 100 as
the claim requires. -/
theorem coverage_claim_counterexample :
    List.Forall₂ (fun a b => a ≤ b) ([0] : List ℚ) [0] ∧
    coverage_percent 1 [0] [0] = 0 ∧ coverage_percent 1 [0] [0] ≠ 100 := by
  refine ⟨?_, ?_, ?_⟩
  · exact List.Forall₂.cons le_rfl List.Forall₂.nil
  · norm_num [coverage_percent]
  · norm_num [coverage_percent]

/-- C5, amended: for aligned non-negative curves and positive grid step, the
coverage percentage `integral(mitigation) / integral(se) * 100` lies in
`[0, 100]`; it is 0 when `integral(se) = 0` and when the counter curve is
all-zero; and it equals 100 when the counter curve is `≥` the side-effect
curve at every sample, provided additionally that `integral(se)` is positive
(in the all-zero side-effect case the division guard makes it 0, not 100). -/
theorem coverage_spec (step : ℚ) (se counter : List ℚ) (hstep : 0 < step)
    (hlen : se.length = counter.length)
    (hse : ∀ v ∈ se, 0 ≤ v) (hc : ∀ v ∈ counter, 0 ≤ v) :
    0 ≤ coverage_percent step se counter ∧
    coverage_percent step se counter ≤ 100 ∧
    (se.sum = 0 → coverage_percent step se counter = 0) ∧
    ((∀ v ∈ counter, v = 0) → coverage_percent step se counter = 0) ∧
    (List.Forall₂ (fun a b => a ≤ b) se counter → 0 < se.sum →
      coverage_percent step se counter = 100) := by
  have hmnn : 0 ≤ (List.zipWith min se counter).sum :=
    sum_zipWith_min_nonneg se counter hse hc
  have hmle : (List.zipWith min se counter).sum ≤ se.sum :=
    sum_zipWith_min_le_left se counter hlen
  by_cases hz : step * se.sum = 0
  · have hcov : coverage_percent step se counter = 0 := by
      simp only [coverage_percent, if_pos hz]
    refine ⟨by rw [hcov], by rw [hcov]; norm_num, fun _ => hcov, fun _ => hcov, ?_⟩
    intro _ hpos
    exfalso
    have : step * se.sum ≠ 0 := mul_ne_zero (ne_of_gt hstep) (ne_of_gt hpos)
    exact this hz
  · have hsum_pos : 0 < se.sum := by
      have h0 : 0 ≤ se.sum := List.sum_nonneg hse
      rcases lt_or_eq_of_le h0 with h | h
      · exact h
      · exact absurd (by rw [← h, mul_zero]) hz
    have hcov : coverage_percent step se counter =
        (List.zipWith min se counter).sum / se.sum * 100 := by
      simp only [coverage_percent, if_neg hz]
      rw [mul_div_mul_left _ _ (ne_of_gt hstep)]
    refine ⟨?_, ?_, ?_, ?_, ?_⟩
    · rw [hcov]
      positivity
    · rw [hcov]
      have : (List.zipWith min se counter).sum / se.sum ≤ 1 :=
        (div_le_one hsum_pos).mpr hmle
      linarith
    · intro h; exact absurd (by rw [h, mul_zero]) hz
    · intro hczero
      rw [hcov, sum_zipWith_min_zero_right se counter hse hczero]
      norm_num
    · intro hle _
      rw [hcov, zipWith_min_of_le hle, div_self (ne_of_gt hsum_pos), one_mul]

/-- C5, witness: instance of the amended theorem with step 1, side-effect
curve `[1, 2]` and counter curve `[2, 2]`. -/
theorem coverage_spec_witness :
    0 ≤ coverage_percent 1 [1, 2] [2, 2] ∧
    coverage_percent 1 [1, 2] [2, 2] ≤ 100 ∧
    (([1, 2] : List ℚ).sum = 0 → coverage_percent 1 [1, 2] [2, 2] = 0) ∧
    ((∀ v ∈ ([2, 2] : List ℚ), v = 0) → coverage_percent 1 [1, 2] [2, 2] = 0) ∧
    (List.Forall₂ (fun a b => a ≤ b) ([1, 2] : List ℚ) [2, 2] →
      0 < ([1, 2] : List ℚ).sum → coverage_percent 1 [1, 2] [2, 2] = 100) :=
  coverage_spec 1 [1, 2] [2, 2] (by norm_num) (by decide)
    (by intro v hv; rcases List.mem_cons.mp hv with rfl | hv2; · norm_num
        · rcases List.mem_cons.mp hv2 with rfl | hv3; · norm_num
          · simp at hv3)
    (by intro v hv; rcases List.mem_cons.mp hv with rfl | hv2; · norm_num
        · rcases List.mem_cons.mp hv2 with rfl | hv3; · norm_num
          · simp at hv3)

/-- C6: the onset hour is the grid time at the first index where the
side-effect curve strictly exceeds 15% of its own peak value; if no index
exceeds the threshold (for example an all-zero curve, whose threshold is 0),
the onset defaults to hour 0. -/
theorem se_onset_spec (t_plot se : List ℚ) :
    ((∀ i, i < se.length → se.getD i 0 ≤ npMax se * (15 / 100)) →
      se_onset_hour t_plot se = 0) ∧
    (∀ i, i < se.length → npMax se * (15 / 100) < se.getD i 0 →
      (∀ j, j < i → se.getD j 0 ≤ npMax se * (15 / 100)) →
      se_onset_hour t_plot se = t_plot.getD i 0) := by
  constructor
  · intro hall
    have hf : se.findIdx? (fun v => decide (npMax se * (15 / 100) < v)) = none := by
      rw [List.findIdx?_eq_none_iff]
      intro x hx
      obtain ⟨i, hi, rfl⟩ := List.mem_iff_getElem.mp hx
      have := hall i hi
      rw [List.getD_eq_getElem _ _ hi] at this
      simpa using not_lt.mpr this
    simp only [se_onset_hour, hf]
  · intro i hi hgt hbefore
    have hf : se.findIdx? (fun v => decide (npMax se * (15 / 100) < v)) = some i := by
      rw [List.findIdx?_eq_some_iff_getElem]
      refine ⟨hi, ?_, ?_⟩
      · rw [List.getD_eq_getElem _ _ hi] at hgt
        simpa using hgt
      · intro j hji
        have hj : j < se.length := lt_trans hji hi
        have := hbefore j hji
        rw [List.getD_eq_getElem _ _ hj] at this
        simpa using not_lt.mpr this
    simp only [se_onset_hour, hf]

/-- C6, witness: on the grid `[0, 1, 2]` with curve `[0, 10, 5]` (peak 10,
threshold 1.5), the first sample exceeding the threshold is index 1, so the
onset hour is grid time 1. -/
theorem se_onset_spec_witness :
    se_onset_hour [0, 1, 2] [0, 10, 5] = ([0, 1, 2] : List ℚ).getD 1 0 := by
  refine (se_onset_spec [0, 1, 2] [0, 10, 5]).2 1 (by decide) ?_ ?_
  · norm_num [npMax]
  · intro j hj
    interval_cases j
    norm_num [npMax]

/-- C9: the rebound side-effect curve is zero at every sample where the
normalized primary curve is non-declining (gradient `≥ 0`) or at/above the
decline-threshold fraction of its own peak — this holds both for the raw
intensity curve and for its final normalization — and the raw intensity
equals `abs(gradient)` at samples satisfying the trigger mask. -/
theorem rebound_spec (h thr : ℚ) (p : List ℚ) (i : ℕ) (hi : i < p.length) :
    ((0 ≤ (npGradient h (normalize p)).getD i 0 ∨
        thr * npMax (normalize p) ≤ (normalize p).getD i 0) →
      (rebound_raw h thr p).getD i 0 = 0 ∧
        (rebound_curve h thr p).getD i 0 = 0) ∧
    (((npGradient h (normalize p)).getD i 0 < 0 ∧
        (normalize p).getD i 0 < thr * npMax (normalize p)) →
      (rebound_raw h thr p).getD i 0 =
        |(npGradient h (normalize p)).getD i 0|) := by
  have hq : i < (normalize p).length := by simpa [normalize] using hi
  have hraw : (rebound_raw h thr p).getD i 0 =
      if (npGradient h (normalize p)).getD i 0 < 0 ∧
          (normalize p).getD i 0 < thr * npMax (normalize p) then
        |(npGradient h (normalize p)).getD i 0| else 0 := by
    show ((List.range (normalize p).length).map _).getD i 0 = _
    rw [getD_map_range _ _ _ hq]
  constructor
  · intro hcond
    have hneg : ¬((npGradient h (normalize p)).getD i 0 < 0 ∧
        (normalize p).getD i 0 < thr * npMax (normalize p)) := by
      rcases hcond with h1 | h2
      · exact fun hc => absurd hc.1 (not_lt.mpr h1)
      · exact fun hc => absurd hc.2 (not_lt.mpr h2)
    have h0 : (rebound_raw h thr p).getD i 0 = 0 := by rw [hraw, if_neg hneg]
    exact ⟨h0, normalize_getD_zero _ _ h0⟩
  · intro hcond
    rw [hraw, if_pos hcond]

/-- C9, witness: on the primary curve `[0, 4, 2]` with unit grid step and
decline threshold 0.7, sample 2 is declining and below threshold, so the raw
rebound intensity there equals the absolute gradient. -/
theorem rebound_spec_witness :
    (rebound_raw 1 (7/10) [0, 4, 2]).getD 2 0 =
      |(npGradient 1 (normalize [0, 4, 2])).getD 2 0| := by
  refine (rebound_spec 1 (7/10) [0, 4, 2] 2 (by norm_num)).2 ?_
  constructor
  · norm_num [npGradient, normalize, npMax]
  · norm_num [npGradient, normalize, npMax]

lemma escalate_mono (l c : String) (hl : l ∈ RISK_LEVELS) (hc : c ∈ RISK_LEVELS) :
    escalate l c ∈ RISK_LEVELS ∧ riskIndex l ≤ riskIndex (escalate l c) ∧
      riskIndex c ≤ riskIndex (escalate l c) ∧
      (escalate l c = l ∨ escalate l c = c) := by
  simp only [RISK_LEVELS, List.mem_cons, List.not_mem_nil, or_false] at hl hc
  rcases hl with rfl | rfl | rfl | rfl <;> rcases hc with rfl | rfl | rfl | rfl <;> decide

lemma ite_escalate_mono (cond : Prop) [Decidable cond] (c l : String)
    (hc : c ∈ RISK_LEVELS) (hl : l ∈ RISK_LEVELS) :
    (if cond then escalate l c else l) ∈ RISK_LEVELS ∧
      riskIndex l ≤ riskIndex (if cond then escalate l c else l) := by
  split
  · exact ⟨(escalate_mono l c hl hc).1, (escalate_mono l c hl hc).2.1⟩
  · exact ⟨hl, le_rfl⟩

lemma clonazepamSteps_mono (p : PatientInputs) :
    ∀ f ∈ clonazepamSteps p, ∀ l ∈ RISK_LEVELS,
      f l ∈ RISK_LEVELS ∧ riskIndex l ≤ riskIndex (f l) := by
  intro f hf l hl
  simp only [clonazepamSteps, List.mem_cons, List.not_mem_nil, or_false] at hf
  rcases hf with rfl | rfl | rfl | rfl | rfl | rfl | rfl
  · exact ite_escalate_mono _ _ _ (by decide) hl
  · exact ite_escalate_mono _ _ _ (by decide) hl
  · cases p.alt with
    | some a => exact ite_escalate_mono _ _ _ (by decide) hl
    | none => exact ⟨hl, le_rfl⟩
  · cases p.ast with
    | some a => exact ite_escalate_mono _ _ _ (by decide) hl
    | none => exact ⟨hl, le_rfl⟩
  · cases p.bilirubin with
    | some b => exact ite_escalate_mono _ _ _ (by decide) hl
    | none => exact ⟨hl, le_rfl⟩
  · cases p.age with
    | some a => exact ite_escalate_mono _ _ _ (by decide) hl
    | none => exact ⟨hl, le_rfl⟩
  · exact ite_escalate_mono _ _ _ (by decide) hl

lemma bp_step_mono (s d : ℤ) (l : String) (hl : l ∈ RISK_LEVELS) :
    (if 160 ≤ s ∨ 100 ≤ d then escalate l "severe"
      else if 140 ≤ s ∨ 90 ≤ d then escalate l "high"
      else if 130 ≤ s ∨ 80 ≤ d then escalate l "med"
      else l) ∈ RISK_LEVELS ∧
    riskIndex l ≤ riskIndex (if 160 ≤ s ∨ 100 ≤ d then escalate l "severe"
      else if 140 ≤ s ∨ 90 ≤ d then escalate l "high"
      else if 130 ≤ s ∨ 80 ≤ d then escalate l "med"
      else l) := by
  split
  · exact ⟨(escalate_mono l "severe" hl (by decide)).1,
      (escalate_mono l "severe" hl (by decide)).2.1⟩
  · split
    · exact ⟨(escalate_mono l "high" hl (by decide)).1,
        (escalate_mono l "high" hl (by decide)).2.1⟩
    · exact ite_escalate_mono _ _ _ (by decide) hl

lemma hr_step_mono (hr : ℤ) (l : String) (hl : l ∈ RISK_LEVELS) :
    (if 120 ≤ hr then escalate l "high"
      else if 100 ≤ hr then escalate l "med" else l) ∈ RISK_LEVELS ∧
    riskIndex l ≤ riskIndex (if 120 ≤ hr then escalate l "high"
      else if 100 ≤ hr then escalate l "med" else l) := by
  split
  · exact ⟨(escalate_mono l "high" hl (by decide)).1,
      (escalate_mono l "high" hl (by decide)).2.1⟩
  · exact ite_escalate_mono _ _ _ (by decide) hl

lemma adderallSteps_mono (p : PatientInputs) :
    ∀ f ∈ adderallSteps p, ∀ l ∈ RISK_LEVELS,
      f l ∈ RISK_LEVELS ∧ riskIndex l ≤ riskIndex (f l) := by
  intro f hf l hl
  simp only [adderallSteps, List.mem_cons, List.not_mem_nil, or_false] at hf
  rcases hf with rfl | rfl | rfl | rfl | rfl | rfl | rfl | rfl | rfl | rfl | rfl
  · exact ite_escalate_mono _ _ _ (by decide) hl
  · exact ite_escalate_mono _ _ _ (by decide) hl
  · exact ite_escalate_mono _ _ _ (by decide) hl
  · exact ite_escalate_mono _ _ _ (by decide) hl
  · exact ite_escalate_mono _ _ _ (by decide) hl
  · exact ite_escalate_mono _ _ _ (by decide) hl
  · cases p.sbp with
    | none => exact ⟨hl, le_rfl⟩
    | some s =>
      cases p.dbp with
      | none => exact ⟨hl, le_rfl⟩
      | some d => exact bp_step_mono s d l hl
  · cases p.heart_rate with
    | none => exact ⟨hl, le_rfl⟩
    | some hr => exact hr_step_mono hr l hl
  · cases p.egfr with
    | some e => exact ite_escalate_mono _ _ _ (by decide) hl
    | none => exact ⟨hl, le_rfl⟩
  · exact ite_escalate_mono _ _ _ (by decide) hl
  · cases p.age with
    | some a => exact ite_escalate_mono _ _ _ (by decide) hl
    | none => exact ⟨hl, le_rfl⟩

lemma foldl_steps_mono :
    ∀ (fs : List (String → String)) (l : String), l ∈ RISK_LEVELS →
      (∀ f ∈ fs, ∀ l2 ∈ RISK_LEVELS,
        f l2 ∈ RISK_LEVELS ∧ riskIndex l2 ≤ riskIndex (f l2)) →
      fs.foldl (fun a f => f a) l ∈ RISK_LEVELS ∧
        riskIndex l ≤ riskIndex (fs.foldl (fun a f => f a) l) := by
  intro fs
  induction fs with
  | nil => intro l hl _; exact ⟨hl, le_rfl⟩
  | cons f fs ih =>
    intro l hl hsteps
    have hstep := hsteps f (List.mem_cons_self _ _) l hl
    have hrest := ih (f l) hstep.1
      (fun g hg => hsteps g (List.mem_cons_of_mem _ hg))
    exact ⟨hrest.1, le_trans hstep.2 hrest.2⟩

/-- C10: `escalate` returns the higher-ranked of its two arguments under the
ordering low < med < high < severe (it is a join: an upper bound of both that
equals one of them); every check of `triage_clonazepam` and `triage_adderall`
maps a valid risk level to a valid risk level without ever decreasing its
rank, so the running level is monotone through the checks; and both triage
results are always one of the four values of `RISK_LEVELS`. -/
theorem escalate_triage_spec (l n : String) (p : PatientInputs)
    (hl : l ∈ RISK_LEVELS) (hn : n ∈ RISK_LEVELS) :
    (escalate l n = l ∨ escalate l n = n) ∧
    riskIndex l ≤ riskIndex (escalate l n) ∧
    riskIndex n ≤ riskIndex (escalate l n) ∧
    escalate l n ∈ RISK_LEVELS ∧
    (∀ f ∈ clonazepamSteps p, ∀ l2 ∈ RISK_LEVELS,
      riskIndex l2 ≤ riskIndex (f l2) ∧ f l2 ∈ RISK_LEVELS) ∧
    (∀ f ∈ adderallSteps p, ∀ l2 ∈ RISK_LEVELS,
      riskIndex l2 ≤ riskIndex (f l2) ∧ f l2 ∈ RISK_LEVELS) ∧
    triage_clonazepam p ∈ RISK_LEVELS ∧
    triage_adderall p ∈ RISK_LEVELS := by
  obtain ⟨h1, h2, h3, h4⟩ := escalate_mono l n hl hn
  refine ⟨h4, h2, h3, h1, ?_, ?_, ?_, ?_⟩
  · intro f hf l2 hl2
    exact (clonazepamSteps_mono p f hf l2 hl2).symm
  · intro f hf l2 hl2
    exact (adderallSteps_mono p f hf l2 hl2).symm
  · exact (foldl_steps_mono (clonazepamSteps p) "low" (by decide)
      (clonazepamSteps_mono p)).1
  · exact (foldl_steps_mono (adderallSteps p) "low" (by decide)
      (adderallSteps_mono p)).1

/-- C10, witness: instance at levels `"low"`, `"high"` and a patient record
with every field blank or `"No"`. -/
theorem escalate_triage_spec_witness :
    (escalate "low" "high" = "low" ∨ escalate "low" "high" = "high") ∧
    riskIndex "low" ≤ riskIndex (escalate "low" "high") ∧
    riskIndex "high" ≤ riskIndex (escalate "low" "high") ∧
    escalate "low" "high" ∈ RISK_LEVELS ∧
    (∀ f ∈ clonazepamSteps
        (PatientInputs.mk none none "No/Not applicable" none none none
          "No" "No" "No" "No" none none none none "No" "No" "No" "No"),
      ∀ l2 ∈ RISK_LEVELS, riskIndex l2 ≤ riskIndex (f l2) ∧ f l2 ∈ RISK_LEVELS) ∧
    (∀ f ∈ adderallSteps
        (PatientInputs.mk none none "No/Not applicable" none none none
          "No" "No" "No" "No" none none none none "No" "No" "No" "No"),
      ∀ l2 ∈ RISK_LEVELS, riskIndex l2 ≤ riskIndex (f l2) ∧ f l2 ∈ RISK_LEVELS) ∧
    triage_clonazepam
        (PatientInputs.mk none none "No/Not applicable" none none none
          "No" "No" "No" "No" none none none none "No" "No" "No" "No") ∈
      RISK_LEVELS ∧
    triage_adderall
        (PatientInputs.mk none none "No/Not applicable" none none none
          "No" "No" "No" "No" none none none none "No" "No" "No" "No") ∈
      RISK_LEVELS :=
  escalate_triage_spec "low" "high"
    (PatientInputs.mk none none "No/Not applicable" none none none
      "No" "No" "No" "No" none none none none "No" "No" "No" "No")
    (by decide) (by decide)

/-- C7: the recommended counter-dose offset is `max(onset_hour - t_max, 0)`,
the optimal absolute counter-dose time is the primary dose timestamp plus that
offset, and consequently the recommended time is never earlier than the
primary dose time. -/
theorem optimal_counter_spec (dt_med onset t_max : ℚ) :
    optimal_counter_offset onset t_max = max (onset - t_max) 0 ∧
    optimal_counter_time dt_med onset t_max =
      dt_med + optimal_counter_offset onset t_max ∧
    dt_med ≤ optimal_counter_time dt_med onset t_max := by
  refine ⟨rfl, rfl, ?_⟩
  have h : (0 : ℚ) ≤ optimal_counter_offset onset t_max := le_max_right _ _
  exact le_add_of_nonneg_right h

end MedEngine
